import Mathlib

/-!
Verification of the StartingClassRando memory tool
(`stat_randomizer_gui.py`).

This file shallowly embeds the parts of the program that the claims
concern:

* `MemoryManager._manual_scan_aob` — the manual chunked AOB scan
  (pattern parsing, chunked reads with `pattern_len - 1` overlap, the
  brute-force masked compare, and resolution of the embedded 4-byte
  little-endian relative offset);
* `MemoryManager.scan_aob` — the accelerated (pymem) scan with its
  exception-triggered fallback to the manual scan;
* `MemoryManager.attach` / `detach` — the candidate loop and module
  resolution;
* `MemoryManager.read_byte` / `write_byte` and
  `EldenRingModTool.unlock_selected_graces` — the grace-unlock loop;
* `randomize_stats` with the surrounding constant tables.

Addresses and scan offsets are `Int` (Python integers may go negative in
the scan loop); byte values are `Nat` below 256.  The remote process's
memory is modelled explicitly: the scanned module is a `List Nat` of its
bytes, and the memory visible to `read_byte`/`write_byte` is a partial
map together with a writability predicate, since any remote access can
fail independently.  Loops whose termination is in question are given
an explicit fuel parameter; `none` means the fuel ran out, so
"the loop terminates" is "some fuel returns `some`".
-/

namespace SCR

/-! ## Patterns

The Python scan parses a space-separated hex string into
`pattern_bytes : list[int]` and `mask : list[bool]`, where a `??` token
contributes `(0, False)` and a hex token `(value, True)`.  We embed the
parsed form: a pattern is a list of tokens, `none` for a wildcard `??`
and `some b` for a fixed byte `b`. -/

/-- `pattern_bytes` of the parsed pattern: wildcard contributes 0. -/
def patBytes (pat : List (Option Nat)) : List Nat :=
  pat.map (fun t => t.getD 0)

/-- `mask` of the parsed pattern: wildcard contributes `false`. -/
def patMask (pat : List (Option Nat)) : List Bool :=
  pat.map Option.isSome

/-- The inner compare loop of `_manual_scan_aob`:
`for j in range(pattern_len): if mask[j] and chunk_bytes[i+j] != pattern_bytes[j]: found = False`. -/
def matchAt (chunk : List Nat) (pb : List Nat) (mask : List Bool) (i : Nat) : Bool :=
  (List.range pb.length).all
    (fun j => !(mask.getD j false) || (chunk.getD (i + j) 0 == pb.getD j 0))

/-- The candidate loop `for i in range(search_end)`, searching from index
`i` with `cnt` candidates left; returns the first matching index. -/
def firstMatchAux (chunk : List Nat) (pb : List Nat) (mask : List Bool) :
    Nat → Nat → Option Nat
  | _, 0 => none
  | i, cnt + 1 =>
    if matchAt chunk pb mask i then some i
    else firstMatchAux chunk pb mask (i + 1) cnt

/-- First match in a chunk, over `search_end = len(chunk_bytes) - pattern_len + 1`
candidates (the code only reaches this once `len(chunk_bytes) >= pattern_len`). -/
def firstMatchIn (chunk : List Nat) (pb : List Nat) (mask : List Bool) : Option Nat :=
  firstMatchAux chunk pb mask 0 (chunk.length + 1 - pb.length)

/-! ## Reading the module

`read_bytes` against the target module: a read succeeds exactly when it
lies inside the mapped module image, otherwise the wrapped pymem call
raises and `read_bytes` returns `b''` (the empty list). -/

/-- `self.read_bytes(self.module_base + offset, size)` restricted to the
module image `mod`; out-of-range reads yield `[]`. -/
def readChunk (mod : List Nat) (off : Int) (size : Int) : List Nat :=
  if 0 ≤ off ∧ 0 ≤ size ∧ off + size ≤ (mod.length : Int) then
    (mod.drop off.toNat).take size.toNat
  else []

/-- Little-endian unsigned 32-bit value of the four bytes `bs[k..k+3]`. -/
def leUInt32 (bs : List Nat) (k : Nat) : Nat :=
  bs.getD k 0 + 256 * bs.getD (k + 1) 0 + 65536 * bs.getD (k + 2) 0 +
    16777216 * bs.getD (k + 3) 0

/-- Reinterpret an unsigned 32-bit value as signed (`struct.unpack('<i', ...)`). -/
def toSigned32 (u : Nat) : Int :=
  if u < 2147483648 then (u : Int) else (u : Int) - 4294967296

/-- `struct.unpack('<i', bs[k:k+4])[0]`. -/
def leSInt32 (bs : List Nat) (k : Nat) : Int :=
  toSigned32 (leUInt32 bs k)

/-! ## The manual chunked scan -/

/-- Outcome of `_manual_scan_aob`: the code returns the resolved absolute
address on a find, and 0 both when the chunk loop runs off the module
(`Pattern not found in module memory`) and when an exception escapes to
the outer handler (`Manual scan failed`); we keep the latter two apart. -/
inductive ScanOut where
  | found (patternAddress resolved : Int)
  | notFound
  | scanError
deriving DecidableEq

/-- The chunk loop of `_manual_scan_aob`, from loop offset `offset`, with
explicit fuel (one unit per iteration; `none` = fuel exhausted).

Mirrors:
```
while offset < self.module_size:
    remaining = self.module_size - offset
    current_chunk_size = min(CHUNK_SIZE, remaining)
    chunk_bytes = self.read_bytes(self.module_base + offset, current_chunk_size)
    if not chunk_bytes or len(chunk_bytes) < pattern_len:
        offset += current_chunk_size - overlap
        continue
    ... first masked match i in chunk ...
    on match: unpack '<i' at chunk_bytes[i+rel_offset : i+rel_offset+4]
              (a short slice raises, caught as scanError)
              return module_base + offset + i + additional + value
    offset += current_chunk_size - overlap
```
with `overlap = pattern_len - 1`. -/
def manualScanAux (mod : List Nat) (moduleBase : Int) (pb : List Nat)
    (mask : List Bool) (relOff : Nat) (additional : Int) (chunkSize : Int) :
    Nat → Int → Option ScanOut
  | 0, _ => none
  | fuel + 1, offset =>
    if offset < (mod.length : Int) then
      let remaining : Int := (mod.length : Int) - offset
      let ccs : Int := min chunkSize remaining
      let chunk : List Nat := readChunk mod offset ccs
      if chunk.length = 0 ∨ chunk.length < pb.length then
        manualScanAux mod moduleBase pb mask relOff additional chunkSize fuel
          (offset + ccs - ((pb.length : Int) - 1))
      else
        match firstMatchIn chunk pb mask with
        | some i =>
          if i + relOff + 4 ≤ chunk.length then
            let pAddr : Int := moduleBase + offset + i
            some (ScanOut.found pAddr (pAddr + additional + leSInt32 chunk (i + relOff)))
          else some ScanOut.scanError
        | none =>
          manualScanAux mod moduleBase pb mask relOff additional chunkSize fuel
            (offset + ccs - ((pb.length : Int) - 1))
    else some ScanOut.notFound

/-- `CHUNK_SIZE = 4 * 1024 * 1024`. -/
def CHUNK_SIZE : Int := 4 * 1024 * 1024

/-- `_manual_scan_aob` as the integer the Python function returns:
`some r` when the function returns `r` (the resolved address on a find,
0 on pattern-not-found and on the exception path), `none` when the chunk
loop has not finished within `fuel` iterations. -/
def manual_scan_aob (mod : List Nat) (moduleBase : Int) (pat : List (Option Nat))
    (relOff : Nat) (additional : Int) (fuel : Nat) : Option Int :=
  match manualScanAux mod moduleBase (patBytes pat) (patMask pat) relOff additional
      CHUNK_SIZE fuel 0 with
  | some (ScanOut.found _ r) => some r
  | some ScanOut.notFound => some 0
  | some ScanOut.scanError => some 0
  | none => none

/-! ## Semantic matching -/

/-- `p` is a genuine match position of pattern `pat` inside the module:
the whole pattern fits at `p`, and the masked compare succeeds there. -/
def GlobalMatch (mod : List Nat) (pat : List (Option Nat)) (p : Nat) : Prop :=
  p + pat.length ≤ mod.length ∧ matchAt mod (patBytes pat) (patMask pat) p = true

instance (mod : List Nat) (pat : List (Option Nat)) (p : Nat) :
    Decidable (GlobalMatch mod pat p) := by
  unfold GlobalMatch; infer_instance

/-! ## C1 and C7: the chunk loop does not terminate on a miss

Once `offset` reaches `module_size - (pattern_len - 1)`, the remaining
bytes number exactly `overlap`, the chunk read is shorter than the
pattern, and `offset += current_chunk_size - overlap` adds zero: the
loop never exits, so the `Pattern not found in module memory` line after
it is unreachable for any pattern of length at least 2. -/

/-- C1 failing input: a 10-byte module of zeros. -/
def c1Mod : List Nat := List.replicate 10 0

/-- C1 failing pattern: `"01 02"`, absent from `c1Mod`. -/
def c1Pat : List (Option Nat) := [some 1, some 2]

lemma c1_stuck : ∀ fuel,
    manualScanAux c1Mod 0 (patBytes c1Pat) (patMask c1Pat) 0 0 CHUNK_SIZE fuel 9 = none
  | 0 => rfl
  | fuel + 1 => c1_stuck fuel

lemma c1_no_exit : ∀ fuel,
    manualScanAux c1Mod 0 (patBytes c1Pat) (patMask c1Pat) 0 0 CHUNK_SIZE fuel 0 = none
  | 0 => rfl
  | fuel + 1 => c1_stuck fuel

/-- **C1** (code bug). The spec promises: when no offset in the module
matches the pattern, the manual chunked scan terminates and signals
`PatternNotFound`.  On the 10-zero-byte module and the two-byte pattern
`01 02` no offset matches (first conjunct), yet `_manual_scan_aob` never
returns, however many loop iterations it is given (second conjunct):
after the first chunk, `offset` sits at `module_size - overlap = 9` and
each iteration adds `current_chunk_size - overlap = 1 - 1 = 0`. -/
theorem manual_scan_unmatched_never_returns :
    firstMatchIn c1Mod (patBytes c1Pat) (patMask c1Pat) = none ∧
    ¬ ∃ fuel r, manual_scan_aob c1Mod 0 c1Pat 0 0 fuel = some r := by
  refine ⟨by decide, ?_⟩
  rintro ⟨fuel, r, h⟩
  rw [manual_scan_aob, c1_no_exit fuel] at h
  exact Option.noConfusion h

/-! ## The masked compare, pointwise -/

lemma patBytes_length (pat : List (Option Nat)) : (patBytes pat).length = pat.length :=
  List.length_map _ _

lemma matchAt_eq_true_iff (chunk pb : List Nat) (mask : List Bool) (i : Nat) :
    matchAt chunk pb mask i = true ↔
      ∀ j, j < pb.length → mask.getD j false = true → chunk.getD (i + j) 0 = pb.getD j 0 := by
  simp [matchAt, List.all_eq_true, List.mem_range, Bool.or_eq_true, Bool.not_eq_true',
    imp_iff_not_or]

lemma matchAt_eq_of_getD (c1 c2 : List Nat) (pb : List Nat) (mask : List Bool)
    (i1 i2 : Nat) (h : ∀ j, j < pb.length → c1.getD (i1 + j) 0 = c2.getD (i2 + j) 0) :
    matchAt c1 pb mask i1 = matchAt c2 pb mask i2 := by
  rw [Bool.eq_iff_iff, matchAt_eq_true_iff, matchAt_eq_true_iff]
  constructor <;> intro hh j hj hm
  · rw [← h j hj]; exact hh j hj hm
  · rw [h j hj]; exact hh j hj hm

/-! ## The candidate loop, characterised -/

lemma firstMatchAux_eq_none (chunk pb : List Nat) (mask : List Bool) :
    ∀ cnt i, (∀ d, d < cnt → matchAt chunk pb mask (i + d) = false) →
      firstMatchAux chunk pb mask i cnt = none := by
  intro cnt
  induction cnt with
  | zero => intro i _; rfl
  | succ n ih =>
    intro i h
    have h0 : matchAt chunk pb mask i = false := by simpa using h 0 n.succ_pos
    rw [firstMatchAux, h0]
    simp only [Bool.false_eq_true, if_false]
    exact ih (i + 1) fun d hd => by
      have h2 := h (d + 1) (by omega)
      have h3 : i + 1 + d = i + (d + 1) := by omega
      rw [h3]; exact h2

lemma firstMatchAux_eq_some (chunk pb : List Nat) (mask : List Bool) :
    ∀ cnt i d, d < cnt → matchAt chunk pb mask (i + d) = true →
      (∀ e, e < d → matchAt chunk pb mask (i + e) = false) →
      firstMatchAux chunk pb mask i cnt = some (i + d) := by
  intro cnt
  induction cnt with
  | zero => intro i d hd; omega
  | succ n ih =>
    intro i d hd hm hlt
    match d with
    | 0 =>
      have hm0 : matchAt chunk pb mask i = true := by simpa using hm
      rw [firstMatchAux, hm0]
      simp
    | e + 1 =>
      have h0 : matchAt chunk pb mask i = false := by simpa using hlt 0 e.succ_pos
      rw [firstMatchAux, h0]
      simp only [Bool.false_eq_true, if_false]
      have heq : i + (e + 1) = i + 1 + e := by omega
      rw [heq]
      exact ih (i + 1) e (by omega)
        (by rw [show i + 1 + e = i + (e + 1) from by omega]; exact hm)
        (fun g hg => by
          rw [show i + 1 + g = i + (g + 1) from by omega]
          exact hlt (g + 1) (by omega))

/-! ## Chunk slices -/

lemma drop_take_getD (mod : List Nat) (lo sn k : Nat) (hk : k < sn) :
    ((mod.drop lo).take sn).getD k 0 = mod.getD (lo + k) 0 := by
  rw [List.getD_eq_getElem?_getD, List.getD_eq_getElem?_getD, List.getElem?_take,
    if_pos hk, List.getElem?_drop]

lemma drop_take_length (mod : List Nat) (lo sn : Nat) (hb : lo + sn ≤ mod.length) :
    ((mod.drop lo).take sn).length = sn := by
  rw [List.length_take, List.length_drop]; omega

lemma readChunk_natCast (mod : List Nat) (lo sn : Nat) (hb : lo + sn ≤ mod.length) :
    readChunk mod (lo : Int) (sn : Int) = (mod.drop lo).take sn := by
  rw [readChunk, if_pos]
  · rw [Int.toNat_natCast, Int.toNat_natCast]
  · exact ⟨by positivity, by positivity, by exact_mod_cast hb⟩

lemma leSInt32_slice (mod : List Nat) (lo sn k : Nat) (hk : k + 4 ≤ sn) :
    leSInt32 ((mod.drop lo).take sn) k = leSInt32 mod (lo + k) := by
  unfold leSInt32 leUInt32
  rw [drop_take_getD mod lo sn k (by omega),
    drop_take_getD mod lo sn (k + 1) (by omega),
    drop_take_getD mod lo sn (k + 2) (by omega),
    drop_take_getD mod lo sn (k + 3) (by omega)]
  simp [Nat.add_assoc]

/-! ## The chunk loop finds the unique match

With a chunk size of at least the pattern length, every candidate
position is eventually examined (consecutive chunks overlap by
`pattern_len - 1`), so if exactly one position of the module matches,
the loop returns it, with the relative offset resolved from the module
bytes at `p + relOff`. -/

theorem manualScanAux_finds (mod : List Nat) (mB : Int) (pat : List (Option Nat))
    (relOff : Nat) (addl : Int) (chunkSize : Int) (p : Nat)
    (hrel : relOff + 4 ≤ pat.length)
    (hcs : (pat.length : Int) ≤ chunkSize)
    (hp : GlobalMatch mod pat p)
    (huniq : ∀ q, GlobalMatch mod pat q → q = p) :
    ∀ fuel o, o ≤ p → p - o < fuel →
      manualScanAux mod mB (patBytes pat) (patMask pat) relOff addl chunkSize fuel (o : Int)
        = some (ScanOut.found (mB + p)
            (mB + p + addl + leSInt32 mod (p + relOff))) := by
  obtain ⟨hpb, hpm⟩ := hp
  have hL : 1 ≤ pat.length := by omega
  intro fuel
  induction fuel with
  | zero => intro o _ h; omega
  | succ f ih =>
    intro o ho hf
    have hoN : (o : Int) < (mod.length : Int) := by
      have : o < mod.length := by omega
      exact_mod_cast this
    have hcs0 : (0 : Int) ≤ chunkSize := le_trans (by positivity) hcs
    have hcsCast : (chunkSize.toNat : Int) = chunkSize := Int.toNat_of_nonneg hcs0
    have hLcs : pat.length ≤ chunkSize.toNat := by
      have h1 : (pat.length : Int) ≤ (chunkSize.toNat : Int) := by rw [hcsCast]; exact hcs
      exact_mod_cast h1
    have hLccs : pat.length ≤ min chunkSize.toNat (mod.length - o) := by omega
    have hccsLe : o + min chunkSize.toNat (mod.length - o) ≤ mod.length := by omega
    have hccsCast : min chunkSize ((mod.length : Int) - (o : Int))
        = ((min chunkSize.toNat (mod.length - o) : Nat) : Int) := by
      rw [Nat.cast_min, hcsCast]
      have hsub : ((mod.length - o : Nat) : Int) = (mod.length : Int) - (o : Int) := by
        omega
      rw [hsub]
    rw [manualScanAux, if_pos hoN]
    simp only [hccsCast,
      readChunk_natCast mod o (min chunkSize.toNat (mod.length - o)) hccsLe]
    have hchunklen : ((mod.drop o).take (min chunkSize.toNat (mod.length - o))).length
        = min chunkSize.toNat (mod.length - o) :=
      drop_take_length mod o _ hccsLe
    rw [if_neg (by rw [hchunklen, patBytes_length]; omega)]
    by_cases hcap : p + pat.length ≤ o + min chunkSize.toNat (mod.length - o)
    · -- the unique match lies in this chunk's candidate range
      have hmatchd : matchAt ((mod.drop o).take (min chunkSize.toNat (mod.length - o)))
          (patBytes pat) (patMask pat) (p - o) = true := by
        rw [matchAt_eq_of_getD _ mod _ _ (p - o) p
          (fun j hj => by
            rw [patBytes_length] at hj
            rw [drop_take_getD mod o _ (p - o + j) (by omega)]
            congr 1
            omega)]
        exact hpm
      have hnone : ∀ e, e < p - o →
          matchAt ((mod.drop o).take (min chunkSize.toNat (mod.length - o)))
            (patBytes pat) (patMask pat) e = false := by
        intro e he
        rw [matchAt_eq_of_getD _ mod _ _ e (o + e)
          (fun j hj => by
            rw [patBytes_length] at hj
            rw [drop_take_getD mod o _ (e + j) (by omega)]
            congr 1
            omega)]
        by_contra hcon
        rw [Bool.not_eq_false] at hcon
        have : o + e = p := huniq (o + e) ⟨by omega, hcon⟩
        omega
      have hfirst : firstMatchIn
          ((mod.drop o).take (min chunkSize.toNat (mod.length - o)))
          (patBytes pat) (patMask pat) = some (p - o) := by
        rw [firstMatchIn, hchunklen, patBytes_length]
        have h5 := firstMatchAux_eq_some _ _ _
          (min chunkSize.toNat (mod.length - o) + 1 - pat.length) 0 (p - o)
          (by omega) (by simpa using hmatchd) (fun e he => by simpa using hnone e he)
        simpa using h5
      rw [hfirst]
      dsimp only
      have hguard : p - o + relOff + 4 ≤
          ((mod.drop o).take (min chunkSize.toNat (mod.length - o))).length := by
        rw [hchunklen]; omega
      rw [if_pos hguard]
      have hsint : leSInt32 ((mod.drop o).take (min chunkSize.toNat (mod.length - o)))
          (p - o + relOff) = leSInt32 mod (p + relOff) := by
        rw [leSInt32_slice mod o _ (p - o + relOff) (by omega)]
        congr 1
        omega
      rw [hsint]
      have haddr : mB + (o : Int) + ((p - o : Nat) : Int) = mB + (p : Int) := by omega
      rw [haddr]
    · -- no candidate in this chunk matches; step to the next chunk
      have hnomatch : ∀ dd, dd < min chunkSize.toNat (mod.length - o) + 1 - pat.length →
          matchAt ((mod.drop o).take (min chunkSize.toNat (mod.length - o)))
            (patBytes pat) (patMask pat) dd = false := by
        intro dd hdd
        rw [matchAt_eq_of_getD _ mod _ _ dd (o + dd)
          (fun j hj => by
            rw [patBytes_length] at hj
            rw [drop_take_getD mod o _ (dd + j) (by omega)]
            congr 1
            omega)]
        by_contra hcon
        rw [Bool.not_eq_false] at hcon
        have : o + dd = p := huniq (o + dd) ⟨by omega, hcon⟩
        omega
      have hfirst : firstMatchIn
          ((mod.drop o).take (min chunkSize.toNat (mod.length - o)))
          (patBytes pat) (patMask pat) = none := by
        rw [firstMatchIn, hchunklen, patBytes_length]
        exact firstMatchAux_eq_none _ _ _ _ 0
          (fun dd hdd => by simpa using hnomatch dd hdd)
      rw [hfirst]
      dsimp only
      have hstep : (o : Int) + ((min chunkSize.toNat (mod.length - o) : Nat) : Int)
          - (((patBytes pat).length : Int) - 1)
          = ((o + min chunkSize.toNat (mod.length - o) + 1 - pat.length : Nat) : Int) := by
        rw [patBytes_length]
        omega
      rw [hstep]
      exact ih (o + min chunkSize.toNat (mod.length - o) + 1 - pat.length)
        (by omega) (by omega)

/-! ## `scan_aob`: the accelerated strategy and its fallback -/

/-- pymem's `pm.read_int(addr)`: a 4-byte little-endian signed read from
the module image; `none` models the call raising (address outside the
mapped image), which `scan_aob`'s `except` clause turns into the manual
fallback. -/
def read_int_pm (mod : List Nat) (moduleBase addr : Int) : Option Int :=
  if 0 ≤ addr - moduleBase ∧ addr - moduleBase + 4 ≤ (mod.length : Int) then
    some (leSInt32 mod (addr - moduleBase).toNat)
  else none

/-- Outcome of the `pymem.pattern.pattern_scan_module` call: it either
raises (any internal failure) or returns an address / `None`. -/
inductive AccelOutcome where
  | raised
  | scanned (result : Option Int)

/-- `MemoryManager.scan_aob`:

```
if not self.pm or self.module_size == 0: return 0
try:
    result = pymem.pattern.pattern_scan_module(...)
    if result:
        relative_offset = self.pm.read_int(result + rel_offset)
        return result + additional + relative_offset
    else:
        self.last_error = "Pattern not found in module memory"; return 0
except Exception:
    return self._manual_scan_aob(pattern, rel_offset, additional)
```

Note that only an exception reaches the manual fallback; a `None` (or
falsy `0`) scan result returns 0 directly. -/
def scan_aob (mod : List Nat) (moduleBase : Int) (attached : Bool)
    (accel : AccelOutcome) (pat : List (Option Nat)) (relOff : Nat)
    (additional : Int) (fuel : Nat) : Option Int :=
  if ¬ attached = true ∨ mod.length = 0 then some 0
  else
    match accel with
    | AccelOutcome.scanned (some result) =>
      if result = 0 then some 0
      else
        match read_int_pm mod moduleBase (result + relOff) with
        | some v => some (result + additional + v)
        | none => manual_scan_aob mod moduleBase pat relOff additional fuel
    | AccelOutcome.scanned none => some 0
    | AccelOutcome.raised => manual_scan_aob mod moduleBase pat relOff additional fuel

/-! ## C8: relative-offset resolution, both strategies -/

/-- **C8** (confirmed). When the pattern has a unique match at module
offset `p` (pattern start address `P = moduleBase + p`), the manual
chunked scan returns `P + additionalConst + rel`, where `rel` is the
4-byte little-endian signed integer stored at `P + relOffsetPos`; and
the accelerated strategy, handed that same found address `P`, resolves
to the identical value.  (`P ≠ 0` reflects Python's `if result:` test —
a zero address is treated as "not found".) -/
theorem scan_resolution_formula (mod : List Nat) (mB : Int) (pat : List (Option Nat))
    (relOff : Nat) (addl chunkSize : Int) (p : Nat) (fuel fuel2 : Nat)
    (hrel : relOff + 4 ≤ pat.length)
    (hcs : (pat.length : Int) ≤ chunkSize)
    (hp : GlobalMatch mod pat p)
    (huniq : ∀ q, GlobalMatch mod pat q → q = p)
    (hfuel : p < fuel)
    (hP : mB + (p : Int) ≠ 0) :
    manualScanAux mod mB (patBytes pat) (patMask pat) relOff addl chunkSize fuel 0
      = some (ScanOut.found (mB + p) (mB + p + addl + leSInt32 mod (p + relOff)))
    ∧ scan_aob mod mB true (AccelOutcome.scanned (some (mB + p))) pat relOff addl fuel2
      = some (mB + p + addl + leSInt32 mod (p + relOff)) := by
  obtain ⟨hp1, hp2⟩ := hp
  constructor
  · have h := manualScanAux_finds mod mB pat relOff addl chunkSize p hrel hcs
      ⟨hp1, hp2⟩ huniq fuel 0 (by omega) (by omega)
    simpa using h
  · have hmod0 : mod.length ≠ 0 := by omega
    rw [scan_aob, if_neg (by simp [hmod0])]
    rw [if_neg hP]
    have hidx : mB + (p : Int) + (relOff : Int) - mB = ((p + relOff : Nat) : Int) := by
      push_cast; ring
    rw [read_int_pm, if_pos (by rw [hidx]; constructor <;> [positivity; (push_cast; omega)])]
    rw [hidx, Int.toNat_natCast]

/-- Sample module for the resolution instance from the spec: the bytes
`AA BB CC 00 01 00 00`, so the little-endian value at offset 3 is
`0x100`. -/
def sigMod : List Nat := [170, 187, 204, 0, 1, 0, 0]

/-- Sample pattern `"AA BB CC ?? ?? ?? ??"`. -/
def sigPat : List (Option Nat) := [some 170, some 187, some 204, none, none, none, none]

/-- Witness for C8: with `P = 4096`, `relOffsetPos = 3`,
`additionalConst = 7` and little-endian value `0x100` at `P + 3`, both
strategies resolve to `P + 7 + 0x100 = 4359`. -/
theorem scan_resolution_formula_witness :
    manualScanAux sigMod 4096 (patBytes sigPat) (patMask sigPat) 3 7 7 1 0
      = some (ScanOut.found 4096 4359)
    ∧ scan_aob sigMod 4096 true (AccelOutcome.scanned (some 4096)) sigPat 3 7 0
      = some 4359 :=
  scan_resolution_formula sigMod 4096 sigPat 3 7 7 0 1 0 (by decide) (by decide)
    (by decide)
    (fun q hq => by
      rcases hq with ⟨h1, _⟩
      have h3 : q + 7 ≤ 7 := by simpa [sigPat, sigMod] using h1
      omega)
    (by decide) (by decide)

/-! ## C4: the strategy chain -/

/-- **C4** counterexample. The claim says a failed accelerated scan —
including the pattern simply not being found by it — falls through to
the manual strategy.  Concretely: with the pattern present in the module
(the manual scan would resolve it to 4359, second conjunct), an
accelerated result of `None` makes `scan_aob` return 0 immediately
(first conjunct); the manual strategy is never attempted. -/
theorem scan_no_fallback_on_none :
    scan_aob sigMod 4096 true (AccelOutcome.scanned none) sigPat 3 7 8 = some 0
    ∧ manual_scan_aob sigMod 4096 sigPat 3 7 8 = some 4359 := by
  exact ⟨rfl, rfl⟩

/-- **C4** (amended): only an exception in the accelerated path reaches
the manual strategy: `scan_aob` falls back to the manual chunked scan
when the accelerated call raises, and likewise when the relative-offset
read on a found address raises; but when the accelerated scan completes
and merely finds nothing (`None` result), `scan_aob` reports the
pattern-not-found failure directly (returns 0) without attempting the
manual strategy. -/
theorem scan_strategy_chain (mod : List Nat) (mB : Int) (pat : List (Option Nat))
    (relOff : Nat) (addl : Int) (fuel : Nat) (P : Int)
    (hmod : mod.length ≠ 0)
    (hread : read_int_pm mod mB (P + relOff) = none)
    (hP : P ≠ 0) :
    scan_aob mod mB true AccelOutcome.raised pat relOff addl fuel
      = manual_scan_aob mod mB pat relOff addl fuel
    ∧ scan_aob mod mB true (AccelOutcome.scanned (some P)) pat relOff addl fuel
      = manual_scan_aob mod mB pat relOff addl fuel
    ∧ scan_aob mod mB true (AccelOutcome.scanned none) pat relOff addl fuel
      = some 0 := by
  refine ⟨?_, ?_, ?_⟩
  · rw [scan_aob, if_neg (by simpa using hmod)]
  · rw [scan_aob, if_neg (by simpa using hmod)]
    rw [if_neg hP, hread]
  · rw [scan_aob, if_neg (by simpa using hmod)]

/-- Witness for the amended C4, on the sample module: a read at
`1 + 3 - 4096 < 0` raises, so the found-address branch falls back too;
the manual scan resolves to 4359 in both fallback branches. -/
theorem scan_strategy_chain_witness :
    scan_aob sigMod 4096 true AccelOutcome.raised sigPat 3 7 8 = some 4359
    ∧ scan_aob sigMod 4096 true (AccelOutcome.scanned (some 1)) sigPat 3 7 8 = some 4359
    ∧ scan_aob sigMod 4096 true (AccelOutcome.scanned none) sigPat 3 7 8 = some 0 :=
  scan_strategy_chain sigMod 4096 sigPat 3 7 8 1 (by decide) (by decide) (by decide)

/-! ## C6: chunk-boundary completeness -/

/-- C6 counterexample module `[0, 1, 2, 3, 4]`. -/
def bndMod : List Nat := [0, 1, 2, 3, 4]

/-- C6 counterexample pattern `"01 02 03 04"`, matching `bndMod` only at
offset 1. -/
def bndPat : List (Option Nat) := [some 1, some 2, some 3, some 4]

lemma bnd_stuck : ∀ fuel,
    manualScanAux bndMod 0 (patBytes bndPat) (patMask bndPat) 0 0 3 fuel 0 = none
  | 0 => rfl
  | fuel + 1 => bnd_stuck fuel

/-- **C6** counterexample. The claim quantifies over *every* chunk size
smaller than the buffer length.  With buffer `[0,1,2,3,4]`, its unique
match of `01 02 03 04` at offset 1, and chunk size 3 (< 5), the chunked
scan never returns at all — each iteration reads 3 bytes, fewer than the
4-byte pattern, and advances by `3 - overlap = 0` — while a whole-buffer
scan (chunk size 5) returns the match at offset 1. -/
theorem chunked_scan_small_chunk_diverges :
    (¬ ∃ fuel r, manualScanAux bndMod 0 (patBytes bndPat) (patMask bndPat)
        0 0 3 fuel 0 = some r)
    ∧ manualScanAux bndMod 0 (patBytes bndPat) (patMask bndPat) 0 0 5 6 0
      = some (ScanOut.found 1 67305986) := by
  constructor
  · rintro ⟨fuel, r, h⟩
    rw [bnd_stuck fuel] at h
    exact Option.noConfusion h
  · rfl

/-- **C6** (amended): for every buffer with exactly one match of the
pattern, and every chunk size that is at least the pattern length (the
counterexample above forces this lower bound; the claim's original
bound, smaller than the buffer length, is kept) the chunked manual scan
with overlap `patternLength − 1` returns the same outcome — same match
offset, same resolved address — as a scan whose chunk size is at least
the buffer length, for every placement of the match, including
placements straddling a chunk boundary.  (`relOff + 4 ≤ patternLength`
is the spec's Pattern invariant on the relative-offset position.) -/
theorem chunked_scan_matches_whole (mod : List Nat) (mB : Int) (pat : List (Option Nat))
    (relOff : Nat) (addl chunkSize chunkSize2 : Int) (p : Nat) (fuel fuel2 : Nat)
    (hrel : relOff + 4 ≤ pat.length)
    (hcs : (pat.length : Int) ≤ chunkSize)
    (hcsSmall : chunkSize < (mod.length : Int))
    (hcs2 : (mod.length : Int) ≤ chunkSize2)
    (hp : GlobalMatch mod pat p)
    (huniq : ∀ q, GlobalMatch mod pat q → q = p)
    (hfuel : p < fuel) (hfuel2 : p < fuel2) :
    manualScanAux mod mB (patBytes pat) (patMask pat) relOff addl chunkSize fuel 0
      = manualScanAux mod mB (patBytes pat) (patMask pat) relOff addl chunkSize2 fuel2 0
    ∧ manualScanAux mod mB (patBytes pat) (patMask pat) relOff addl chunkSize fuel 0
      = some (ScanOut.found (mB + p) (mB + p + addl + leSInt32 mod (p + relOff))) := by
  obtain ⟨hp1, hp2⟩ := hp
  have hcs2L : (pat.length : Int) ≤ chunkSize2 := by
    have hlen : (pat.length : Int) ≤ (mod.length : Int) := by
      exact_mod_cast (by omega : pat.length ≤ mod.length)
    omega
  have h1 := manualScanAux_finds mod mB pat relOff addl chunkSize p hrel hcs
    ⟨hp1, hp2⟩ huniq fuel 0 (by omega) (by omega)
  have h2 := manualScanAux_finds mod mB pat relOff addl chunkSize2 p hrel hcs2L
    ⟨hp1, hp2⟩ huniq fuel2 0 (by omega) (by omega)
  simp only [Nat.cast_zero] at h1 h2
  exact ⟨h1.trans h2.symm, h1⟩

/-- Sample buffer for the amended C6: `[7, 1, 2, 3, 9, 8]` with pattern
`"01 02 03 ??"` matching only at offset 1, chunk size 5 against a
whole-buffer chunk size 6; the match straddles the 5-byte chunk and both
scans return it. -/
def bndwMod : List Nat := [7, 1, 2, 3, 9, 8]

/-- The pattern `"01 02 03 ??"`. -/
def bndwPat : List (Option Nat) := [some 1, some 2, some 3, none]

/-- Witness for the amended C6 at the sample buffer. -/
theorem chunked_scan_matches_whole_witness :
    manualScanAux bndwMod 0 (patBytes bndwPat) (patMask bndwPat) 0 0 5 2 0
      = manualScanAux bndwMod 0 (patBytes bndwPat) (patMask bndwPat) 0 0 6 2 0
    ∧ manualScanAux bndwMod 0 (patBytes bndwPat) (patMask bndwPat) 0 0 5 2 0
      = some (ScanOut.found 1 151192066) :=
  chunked_scan_matches_whole bndwMod 0 bndwPat 0 0 5 6 1 2 2 (by decide) (by decide)
    (by decide) (by decide) (by decide)
    (fun q hq => by
      rcases hq with ⟨h1, h2⟩
      have h3 : q + 4 ≤ 6 := by simpa [bndwPat, bndwMod] using h1
      have h4 : q ≤ 2 := by omega
      interval_cases q
      · exact absurd h2 (by decide)
      · rfl
      · exact absurd h2 (by decide))
    (by decide) (by decide)

/-- C7 failing input: module bytes `[5, 5, 5, 5]`. -/
def c7Mod : List Nat := [5, 5, 5, 5]

/-- C7 failing pattern: `"AA BB"`, absent from `c7Mod`. -/
def c7Pat : List (Option Nat) := [some 170, some 187]

lemma c7_stuck : ∀ fuel,
    manualScanAux c7Mod 0 (patBytes c7Pat) (patMask c7Pat) 0 0 CHUNK_SIZE fuel 3 = none
  | 0 => rfl
  | fuel + 1 => c7_stuck fuel

lemma c7_no_exit : ∀ fuel,
    manualScanAux c7Mod 0 (patBytes c7Pat) (patMask c7Pat) 0 0 CHUNK_SIZE fuel 0 = none
  | 0 => rfl
  | fuel + 1 => c7_stuck fuel

/-- **C7** (code bug, `PatternNotFound` conjunct). The per-offset masked
compare and lowest-offset selection are as claimed (established in the
chunk-equivalence development below), but the claim's final conjunct —
the scan signals `PatternNotFound` when no offset matches — fails: on
module `[5, 5, 5, 5]` with the absent two-byte pattern `AA BB` the scan
never returns, for any number of iterations, because once
`offset = 3` each iteration adds `min(CHUNK_SIZE, 1) - 1 = 0`. -/
theorem masked_scan_miss_never_signalled :
    firstMatchIn c7Mod (patBytes c7Pat) (patMask c7Pat) = none ∧
    ¬ ∃ fuel r, manual_scan_aob c7Mod 0 c7Pat 0 0 fuel = some r := by
  refine ⟨by decide, ?_⟩
  rintro ⟨fuel, r, h⟩
  rw [manual_scan_aob, c7_no_exit fuel] at h
  exact Option.noConfusion h

/-! ## Byte read/write and the grace-unlock loop

`read_byte` and `write_byte` act on the remote process's memory, any
access to which can fail independently.  We model that memory as a
partial map `mem : Int → Option Nat` (`none` at an address means
`pm.read_uchar` raises there) plus a writability predicate
(`pm.write_uchar` raises at non-writable addresses).  `calls` is a ghost
observation log of every attempted `pm.write_uchar(addr, value & 0xFF)`
call, recorded so that theorems can speak about *whether a write was
issued*; it has no influence on control flow and no counterpart in the
Python (which keeps no record of its writes). -/

structure MemMgr where
  attached : Bool
  mem : Int → Option Nat
  writable : Int → Bool
  calls : List (Int × Nat)

/-- `MemoryManager.read_byte`: `if not self.pm: return 0`, then
`pm.read_uchar`, returning 0 on any exception. -/
def read_byte (m : MemMgr) (addr : Int) : Nat :=
  if m.attached then (m.mem addr).getD 0 else 0

/-- Append the attempted `pm.write_uchar(addr, value & 0xFF)` call to
the ghost log. -/
def logWrite (m : MemMgr) (addr : Int) (value : Nat) : MemMgr :=
  { m with calls := m.calls ++ [(addr, value % 256)] }

/-- The byte store a successful `pm.write_uchar(addr, value & 0xFF)`
performs. -/
def storeByte (m : MemMgr) (addr : Int) (value : Nat) : MemMgr :=
  { m with mem := fun a => if a = addr then some (value % 256) else m.mem a }

/-- `MemoryManager.write_byte`: `if not self.pm: return False`, then
`pm.write_uchar(address, value & 0xFF)`, `True` on success and `False`
on exception (non-writable address). -/
def write_byte (m : MemMgr) (addr : Int) (value : Nat) : Bool × MemMgr :=
  if m.attached then
    if m.writable addr then (true, storeByte (logWrite m addr value) addr value)
    else (false, logWrite m addr value)
  else (false, m)

@[simp] lemma logWrite_mem (m : MemMgr) (a : Int) (v : Nat) (x : Int) :
    (logWrite m a v).mem x = m.mem x := rfl

@[simp] lemma logWrite_attached (m : MemMgr) (a : Int) (v : Nat) :
    (logWrite m a v).attached = m.attached := rfl

@[simp] lemma logWrite_writable (m : MemMgr) (a : Int) (v : Nat) (x : Int) :
    (logWrite m a v).writable x = m.writable x := rfl

@[simp] lemma logWrite_calls (m : MemMgr) (a : Int) (v : Nat) :
    (logWrite m a v).calls = m.calls ++ [(a, v % 256)] := rfl

@[simp] lemma storeByte_attached (m : MemMgr) (a : Int) (v : Nat) :
    (storeByte m a v).attached = m.attached := rfl

@[simp] lemma storeByte_writable (m : MemMgr) (a : Int) (v : Nat) (x : Int) :
    (storeByte m a v).writable x = m.writable x := rfl

@[simp] lemma storeByte_calls (m : MemMgr) (a : Int) (v : Nat) :
    (storeByte m a v).calls = m.calls := rfl

@[simp] lemma storeByte_mem_self (m : MemMgr) (a : Int) (v : Nat) :
    (storeByte m a v).mem a = some (v % 256) := by
  simp [storeByte]

lemma storeByte_mem_ne (m : MemMgr) (a : Int) (v : Nat) (x : Int) (h : x ≠ a) :
    (storeByte m a v).mem x = m.mem x := by
  simp [storeByte, h]

/-- The loop body of `EldenRingModTool.unlock_selected_graces`:

```
unlocked = []
for grace_name, var in self.grace_checkboxes.items():
    if var.get() and grace_name in KNOWN_GRACES:
        offset, bit = KNOWN_GRACES[grace_name]
        addr = flag_base + offset
        current = self.memory.read_byte(addr)
        new_value = current | (1 << bit)
        if self.memory.write_byte(addr, new_value):
            unlocked.append(grace_name)
```

`items` is the checkbox list in insertion order (name, checked state);
`tbl` is the `KNOWN_GRACES` lookup.  Returns the final memory state and
the `unlocked` list; nothing else is recorded by the code. -/
def unlockGraces (tbl : String → Option (Nat × Nat)) (flagBase : Int) :
    List (String × Bool) → MemMgr → MemMgr × List String
  | [], m => (m, [])
  | (nm, v) :: rest, m =>
    match v, tbl nm with
    | true, some (offset, bit) =>
      let addr : Int := flagBase + offset
      let current : Nat := read_byte m addr
      let newValue : Nat := current ||| (1 <<< bit)
      let w := write_byte m addr newValue
      let r := unlockGraces tbl flagBase rest w.2
      (r.1, if w.1 then nm :: r.2 else r.2)
    | _, _ => unlockGraces tbl flagBase rest m

lemma unlockGraces_cons (tbl : String → Option (Nat × Nat)) (flagBase : Int)
    (nm : String) (offset bit : Nat) (rest : List (String × Bool)) (m : MemMgr)
    (htbl : tbl nm = some (offset, bit)) :
    unlockGraces tbl flagBase ((nm, true) :: rest) m
      = ((unlockGraces tbl flagBase rest
            (write_byte m (flagBase + offset)
              (read_byte m (flagBase + offset) ||| (1 <<< bit))).2).1,
         if (write_byte m (flagBase + offset)
              (read_byte m (flagBase + offset) ||| (1 <<< bit))).1 then
           nm :: (unlockGraces tbl flagBase rest (write_byte m (flagBase + offset)
              (read_byte m (flagBase + offset) ||| (1 <<< bit))).2).2
         else (unlockGraces tbl flagBase rest (write_byte m (flagBase + offset)
              (read_byte m (flagBase + offset) ||| (1 <<< bit))).2).2) := by
  conv_lhs => rw [unlockGraces.eq_def]
  dsimp only
  rw [htbl]

/-! ## C2: behaviour on a failed read -/

/-- Table used in the unlock scenarios: three graces at offsets
0, 1, 2 with bits 1, 2, 3. -/
def cexTbl : String → Option (Nat × Nat) := fun nm =>
  if nm = "a" then some (0, 1)
  else if nm = "b" then some (1, 2)
  else if nm = "c" then some (2, 3)
  else none

/-- Memory for the C2 counterexample: every read raises (`none`), every
address is writable, process attached. -/
def c2Mem : MemMgr :=
  { attached := true
    mem := fun _ => none
    writable := fun _ => true
    calls := [] }

/-- **C2** counterexample.  The claim: if reading the byte at
`flagBase + byteOffset` fails, the flag is recorded as `ReadFailed` and
no write is performed for it.  Concretely, with `flagBase = 100` and
grace `"a"` at `(offset 0, bit 1)` whose read raises: `read_byte`
returns 0, the loop still issues a write of `0 | (1 << 1) = 2` to
address 100 (the ghost call log, first conjunct; the byte is changed,
second conjunct), and the flag is recorded as **unlocked**, not as any
failure (third conjunct). -/
theorem unlock_read_fail_still_writes :
    (unlockGraces cexTbl 100 [("a", true)] c2Mem).1.calls = [(100, 2)]
    ∧ (unlockGraces cexTbl 100 [("a", true)] c2Mem).1.mem 100 = some 2
    ∧ (unlockGraces cexTbl 100 [("a", true)] c2Mem).2 = ["a"] := by
  refine ⟨rfl, by decide, rfl⟩

/-- **C2** (amended): if reading the current byte at
`flagBase + byteOffset` fails, `read_byte` returns 0, the loop computes
`newValue = 0 | (1 << bitIndex)` and still issues the write; no
`ReadFailed` is recorded anywhere (on write success the flag is instead
recorded as unlocked); processing continues with the remaining flags. -/
theorem unlock_read_fail_behaviour (tbl : String → Option (Nat × Nat))
    (flagBase : Int) (nm : String) (offset bit : Nat) (rest : List (String × Bool))
    (m : MemMgr)
    (hat : m.attached = true)
    (htbl : tbl nm = some (offset, bit))
    (hread : m.mem (flagBase + offset) = none)
    (hw : m.writable (flagBase + offset) = true) :
    (unlockGraces tbl flagBase ((nm, true) :: rest) m).2
      = nm :: (unlockGraces tbl flagBase rest
          (write_byte m (flagBase + offset) (1 <<< bit)).2).2
    ∧ (unlockGraces tbl flagBase ((nm, true) :: rest) m).1
      = (unlockGraces tbl flagBase rest
          (write_byte m (flagBase + offset) (1 <<< bit)).2).1
    ∧ (write_byte m (flagBase + offset) (1 <<< bit)).2.mem (flagBase + offset)
      = some ((1 <<< bit) % 256)
    ∧ (write_byte m (flagBase + offset) (1 <<< bit)).2.calls
      = m.calls ++ [(flagBase + offset, (1 <<< bit) % 256)] := by
  have hcur : read_byte m (flagBase + offset) = 0 := by
    rw [read_byte, if_pos hat, hread]
    rfl
  have hnew : read_byte m (flagBase + offset) ||| (1 <<< bit) = 1 <<< bit := by
    rw [hcur]
    exact Nat.zero_or _
  have hwres : (write_byte m (flagBase + offset) (1 <<< bit)).1 = true := by
    rw [write_byte, if_pos hat, if_pos hw]
  refine ⟨?_, ?_, ?_, ?_⟩
  · rw [unlockGraces_cons tbl flagBase nm offset bit rest m htbl, hnew, hwres]
    simp
  · rw [unlockGraces_cons tbl flagBase nm offset bit rest m htbl, hnew]
  · rw [write_byte, if_pos hat, if_pos hw]
    simp
  · rw [write_byte, if_pos hat, if_pos hw]
    simp

/-- Witness for the amended C2 at the concrete C2 scenario. -/
theorem unlock_read_fail_behaviour_witness :
    (unlockGraces cexTbl 100 [("a", true)] c2Mem).2
      = "a" :: (unlockGraces cexTbl 100 [] (write_byte c2Mem 100 (1 <<< 1)).2).2
    ∧ (unlockGraces cexTbl 100 [("a", true)] c2Mem).1
      = (unlockGraces cexTbl 100 [] (write_byte c2Mem 100 (1 <<< 1)).2).1
    ∧ (write_byte c2Mem 100 (1 <<< 1)).2.mem 100 = some ((1 <<< 1) % 256)
    ∧ (write_byte c2Mem 100 (1 <<< 1)).2.calls
      = c2Mem.calls ++ [((100 : Int), (1 <<< 1) % 256)] :=
  unlock_read_fail_behaviour cexTbl 100 "a" 0 1 [] c2Mem rfl rfl rfl rfl

/-! ## C5: non-transactionality and the missing `writeFailed` record -/

/-- Memory for the C5 scenario: all flag bytes readable as 0; address
101 is not writable (its write fails), everything else is. -/
def c5Mem : MemMgr :=
  { attached := true
    mem := fun _ => some 0
    writable := fun a => decide (a ≠ 101)
    calls := [] }

/-- **C5** counterexample.  With graces `"a"`, `"b"`, `"c"` requested in
order, `"b"`'s write failing (unwritable address 101) and the others
succeeding, the loop's entire report is the `unlocked` list
`["a", "c"]` (first conjunct).  The claim additionally requires
`UnlockReport.writeFailed` to contain exactly `"b"` — but the code
maintains no `writeFailed` record at all: `"b"` appears nowhere in the
result (second conjunct; the only name list the code produces is
`unlocked`), its byte left unmodified (third conjunct). -/
theorem unlock_no_write_failed_record :
    (unlockGraces cexTbl 100 [("a", true), ("b", true), ("c", true)] c5Mem).2
      = ["a", "c"]
    ∧ ¬ ("b" ∈ (unlockGraces cexTbl 100
          [("a", true), ("b", true), ("c", true)] c5Mem).2)
    ∧ (unlockGraces cexTbl 100 [("a", true), ("b", true), ("c", true)] c5Mem).1.mem 101
      = some 0 := by
  refine ⟨by decide, by decide, by decide⟩

/-- **C5** (amended): unlock is not transactional — with three known
requested flags at pairwise distinct addresses, the second's write
failing and the other two succeeding, all three are still processed:
`unlocked` contains exactly the first and third names, the first and
third bytes have their bits set, and the second byte is unchanged.  But
the code keeps no `writeFailed` record: the second name (when distinct
from the others) is absent from the report, its failure leaving no trace
beyond the unmodified byte. -/
theorem unlock_partial_failure (tbl : String → Option (Nat × Nat)) (flagBase : Int)
    (n1 n2 n3 : String) (o1 o2 o3 b1 b2 b3 : Nat) (v1 v2 v3 : Nat) (m : MemMgr)
    (hat : m.attached = true)
    (ht1 : tbl n1 = some (o1, b1)) (ht2 : tbl n2 = some (o2, b2))
    (ht3 : tbl n3 = some (o3, b3))
    (hd12 : o1 ≠ o2) (hd13 : o1 ≠ o3) (hd23 : o2 ≠ o3)
    (hm1 : m.mem (flagBase + o1) = some v1) (hm2 : m.mem (flagBase + o2) = some v2)
    (hm3 : m.mem (flagBase + o3) = some v3)
    (hw1 : m.writable (flagBase + o1) = true)
    (hw2 : m.writable (flagBase + o2) = false)
    (hw3 : m.writable (flagBase + o3) = true)
    (hn12 : n1 ≠ n2) (hn23 : n2 ≠ n3) :
    (unlockGraces tbl flagBase [(n1, true), (n2, true), (n3, true)] m).2 = [n1, n3]
    ∧ ¬ (n2 ∈ (unlockGraces tbl flagBase [(n1, true), (n2, true), (n3, true)] m).2)
    ∧ (unlockGraces tbl flagBase [(n1, true), (n2, true), (n3, true)] m).1.mem
        (flagBase + o1) = some ((v1 ||| (1 <<< b1)) % 256)
    ∧ (unlockGraces tbl flagBase [(n1, true), (n2, true), (n3, true)] m).1.mem
        (flagBase + o2) = some v2
    ∧ (unlockGraces tbl flagBase [(n1, true), (n2, true), (n3, true)] m).1.mem
        (flagBase + o3) = some ((v3 ||| (1 <<< b3)) % 256) := by
  have ha12 : flagBase + (o2 : Int) ≠ flagBase + (o1 : Int) := by
    intro h; apply hd12; omega
  have ha13 : flagBase + (o3 : Int) ≠ flagBase + (o1 : Int) := by
    intro h; apply hd13; omega
  have ha21 : flagBase + (o1 : Int) ≠ flagBase + (o2 : Int) := fun h => ha12 h.symm
  have ha23 : flagBase + (o3 : Int) ≠ flagBase + (o2 : Int) := by
    intro h; apply hd23; omega
  have ha32 : flagBase + (o2 : Int) ≠ flagBase + (o3 : Int) := fun h => ha23 h.symm
  have ha31 : flagBase + (o1 : Int) ≠ flagBase + (o3 : Int) := fun h => ha13 h.symm
  -- first flag: read v1, write succeeds
  have hr1 : read_byte m (flagBase + o1) = v1 := by
    rw [read_byte, if_pos hat, hm1]; rfl
  have hwb1 : write_byte m (flagBase + o1) (v1 ||| (1 <<< b1))
      = (true, storeByte (logWrite m (flagBase + o1) (v1 ||| (1 <<< b1)))
          (flagBase + o1) (v1 ||| (1 <<< b1))) := by
    rw [write_byte, if_pos hat, if_pos hw1]
  set m1 : MemMgr := storeByte (logWrite m (flagBase + o1) (v1 ||| (1 <<< b1)))
      (flagBase + o1) (v1 ||| (1 <<< b1)) with hm1def
  -- second flag: read v2, write fails
  have hr2 : read_byte m1 (flagBase + o2) = v2 := by
    rw [read_byte, if_pos (by simp [hm1def, hat]), hm1def,
      storeByte_mem_ne _ _ _ _ ha12, logWrite_mem, hm2]
    rfl
  have hwb2 : write_byte m1 (flagBase + o2) (v2 ||| (1 <<< b2))
      = (false, logWrite m1 (flagBase + o2) (v2 ||| (1 <<< b2))) := by
    rw [write_byte, if_pos (by simp [hm1def, hat]),
      if_neg (by simp [hm1def, hw2])]
  set m2 : MemMgr := logWrite m1 (flagBase + o2) (v2 ||| (1 <<< b2)) with hm2def
  -- third flag: read v3, write succeeds
  have hr3 : read_byte m2 (flagBase + o3) = v3 := by
    rw [read_byte, if_pos (by simp [hm2def, hm1def, hat]), hm2def, logWrite_mem,
      hm1def, storeByte_mem_ne _ _ _ _ ha13, logWrite_mem, hm3]
    rfl
  have hwb3 : write_byte m2 (flagBase + o3) (v3 ||| (1 <<< b3))
      = (true, storeByte (logWrite m2 (flagBase + o3) (v3 ||| (1 <<< b3)))
          (flagBase + o3) (v3 ||| (1 <<< b3))) := by
    rw [write_byte, if_pos (by simp [hm2def, hm1def, hat]),
      if_pos (by simp [hm2def, hm1def, hw3])]
  set m3 : MemMgr := storeByte (logWrite m2 (flagBase + o3) (v3 ||| (1 <<< b3)))
      (flagBase + o3) (v3 ||| (1 <<< b3)) with hm3def
  have hfull : unlockGraces tbl flagBase [(n1, true), (n2, true), (n3, true)] m
      = (m3, [n1, n3]) := by
    rw [unlockGraces_cons tbl flagBase n1 o1 b1 _ m ht1, hr1, hwb1]
    rw [unlockGraces_cons tbl flagBase n2 o2 b2 _ m1 ht2, hr2, hwb2]
    rw [unlockGraces_cons tbl flagBase n3 o3 b3 _ m2 ht3, hr3, hwb3]
    simp [unlockGraces]
  rw [hfull]
  refine ⟨rfl, ?_, ?_, ?_, ?_⟩
  · simp [hn12.symm, hn23]
  · rw [hm3def, storeByte_mem_ne _ _ _ _ ha31, logWrite_mem, hm2def, logWrite_mem,
      hm1def, storeByte_mem_self]
  · rw [hm3def, storeByte_mem_ne _ _ _ _ ha32, logWrite_mem, hm2def, logWrite_mem,
      hm1def, storeByte_mem_ne _ _ _ _ ha12, logWrite_mem, hm2]
  · rw [hm3def, storeByte_mem_self]

/-- Witness for the amended C5 at the concrete C5 scenario. -/
theorem unlock_partial_failure_witness :
    (unlockGraces cexTbl 100 [("a", true), ("b", true), ("c", true)] c5Mem).2
      = ["a", "c"]
    ∧ ¬ ("b" ∈ (unlockGraces cexTbl 100
        [("a", true), ("b", true), ("c", true)] c5Mem).2)
    ∧ (unlockGraces cexTbl 100 [("a", true), ("b", true), ("c", true)] c5Mem).1.mem
        (100 + (0 : Nat)) = some ((0 ||| (1 <<< 1)) % 256)
    ∧ (unlockGraces cexTbl 100 [("a", true), ("b", true), ("c", true)] c5Mem).1.mem
        (100 + (1 : Nat)) = some 0
    ∧ (unlockGraces cexTbl 100 [("a", true), ("b", true), ("c", true)] c5Mem).1.mem
        (100 + (2 : Nat)) = some ((0 ||| (1 <<< 3)) % 256) :=
  unlock_partial_failure cexTbl 100 "a" "b" "c" 0 1 2 1 2 3 0 0 0 c5Mem
    rfl rfl rfl rfl (by decide) (by decide) (by decide) rfl rfl rfl
    (by decide) (by decide) (by decide) (by decide) (by decide)

/-! ## `attach` / `detach`

The candidate loop of `MemoryManager.attach`.  Opening a candidate name
has four outcomes, mirroring the `except` arms:
`pymem.exception.ProcessNotFound` (try the next name),
`pymem.exception.CouldNotOpenProcess` (set `last_error`, return False),
any other exception (set `last_error`, try the next name), or success,
in which case `pymem.process.module_from_name` yields either module info
or `None`. -/

inductive OpenResult where
  | notFound
  | accessDenied
  | otherError
  | opened (pid : Nat) (moduleInfo : Option (Nat × Nat))

/-- The mutable `MemoryManager` fields that `attach`/`detach` touch. -/
structure AttachState where
  pm : Bool
  process_id : Nat
  process_name : String
  module_base : Nat
  module_size : Nat
  last_error : String
deriving DecidableEq

/-- `MemoryManager.detach`: close the handle and zero the module
fields (`last_error` is left alone). -/
def detachState (s : AttachState) : AttachState :=
  { s with
    pm := false
    process_id := 0
    process_name := ""
    module_base := 0
    module_size := 0 }

/-- The `for name in process_names` loop of `attach`; `cands` pairs each
candidate name with the outcome of opening it. -/
def attachLoop : List (String × OpenResult) → AttachState → AttachState × Bool
  | [], s => ({ s with last_error := "Process not found" }, false)
  | (nm, r) :: rest, s =>
    match r with
    | OpenResult.notFound => attachLoop rest s
    | OpenResult.accessDenied =>
      ({ s with last_error := "Could not open process (run as Administrator)" }, false)
    | OpenResult.otherError =>
      attachLoop rest { s with last_error := "Error attaching" }
    | OpenResult.opened pid none =>
      attachLoop rest
        { s with
          pm := true
          process_id := pid
          process_name := nm
          last_error := "Could not get module info" }
    | OpenResult.opened pid (some (base, size)) =>
      ({ s with
          pm := true
          process_id := pid
          process_name := nm
          module_base := base
          module_size := size }, true)

/-- `MemoryManager.attach`: fail outright without pymem, otherwise
detach any prior session and run the candidate loop. -/
def attach (pymemAvailable : Bool) (cands : List (String × OpenResult))
    (s : AttachState) : AttachState × Bool :=
  if pymemAvailable then
    attachLoop cands (if s.pm then detachState s else s)
  else ({ s with last_error := "pymem not installed" }, false)

/-- The detached start state. -/
def s0 : AttachState :=
  { pm := false, process_id := 0, process_name := "", module_base := 0,
    module_size := 0, last_error := "" }

/-- **C3** counterexample.  The claim: when a candidate opens but module
resolution fails, `attach` still returns a session (success) with
`moduleSize = 0`.  Concretely, with a single candidate that opens (pid
42) but whose `module_from_name` yields `None`, `attach` returns
**False** — the same value as total attach failure (first conjunct) —
even though the handle stays open (`pm` true, second conjunct) with
`module_size = 0` (third conjunct). -/
theorem attach_module_resolution_returns_false :
    (attach true [("eldenring.exe", OpenResult.opened 42 none)] s0).2 = false
    ∧ (attach true [("eldenring.exe", OpenResult.opened 42 none)] s0).1.pm = true
    ∧ (attach true [("eldenring.exe", OpenResult.opened 42 none)] s0).1.module_size
      = 0 := by
  refine ⟨rfl, rfl, rfl⟩

lemma attachLoop_all_notFound :
    ∀ rest : List (String × OpenResult),
      (∀ e ∈ rest, e.2 = OpenResult.notFound) → ∀ s : AttachState,
      attachLoop rest s = ({ s with last_error := "Process not found" }, false) := by
  intro rest
  induction rest with
  | nil => intro _ s; rfl
  | cons hd tl ih =>
    intro h s
    obtain ⟨nm, r⟩ := hd
    have hr : r = OpenResult.notFound := h (nm, r) (List.mem_cons_self _ _)
    rw [hr, attachLoop]
    exact ih (fun e he => h e (List.mem_cons_of_mem _ he)) s

/-- **C3** (amended): when an opened candidate's module resolution
fails, the code records the error and keeps trying the remaining
candidates; if none fully succeeds, `attach` returns **failure**
(`False`) — by return value indistinguishable from total attach failure
— while the handle from the opened candidate is retained: the object is
left with `is_attached` true and `module_size = 0`, an
attached-but-not-scannable state reachable only through the object's
fields, not through the return value. -/
theorem attach_module_resolution_behaviour (nm : String) (pid : Nat)
    (rest : List (String × OpenResult)) (s : AttachState)
    (hrest : ∀ e ∈ rest, e.2 = OpenResult.notFound)
    (hpm : s.pm = false) :
    (attach true ((nm, OpenResult.opened pid none) :: rest) s).2 = false
    ∧ (attach true ((nm, OpenResult.opened pid none) :: rest) s).1.pm = true
    ∧ (attach true ((nm, OpenResult.opened pid none) :: rest) s).1.module_size
      = s.module_size := by
  rw [attach, if_pos rfl, if_neg (by rw [hpm]; exact Bool.false_ne_true), attachLoop,
    attachLoop_all_notFound rest hrest]
  exact ⟨rfl, rfl, rfl⟩

/-- Witness for the amended C3: one opened-but-unresolved candidate
followed by a not-found candidate. -/
theorem attach_module_resolution_behaviour_witness :
    (attach true [("eldenring.exe", OpenResult.opened 42 none),
        ("start_protected_game.exe", OpenResult.notFound)] s0).2 = false
    ∧ (attach true [("eldenring.exe", OpenResult.opened 42 none),
        ("start_protected_game.exe", OpenResult.notFound)] s0).1.pm = true
    ∧ (attach true [("eldenring.exe", OpenResult.opened 42 none),
        ("start_protected_game.exe", OpenResult.notFound)] s0).1.module_size
      = s0.module_size :=
  attach_module_resolution_behaviour "eldenring.exe" 42
    [("start_protected_game.exe", OpenResult.notFound)] s0
    (by intro e he; simp at he; rw [he]) rfl

/-! ## The stat randomizer

```
PLAYER_CLASSES = {3000: 'Vagabond', ..., 3009: 'Wretch'}
TARGET_LEVEL = 9; TOTAL_STATS = 88; MIN_STAT = 6; NUM_STATS = 8

def randomize_stats(seed):
    random.seed(seed)
    remaining_pool = TOTAL_STATS - (MIN_STAT * NUM_STATS)
    all_stats = {}
    for row_id, class_name in PLAYER_CLASSES.items():
        stats = {k: MIN_STAT for k in ['vigor', ..., 'arcane']}
        for _ in range(remaining_pool):
            stats[random.choice(list(stats.keys()))] += 1
        stats['level'] = TARGET_LEVEL
        all_stats[row_id] = {'name': class_name, 'stats': stats}
    return all_stats
```

The global `random` generator is modelled as a state `PyRandom`: an
abstract value stream plus a position.  `random.seed(seed)` replaces the
whole state by `seedStream seed` at position 0, where
`seedStream : Int → Nat → Nat` stands for the Mersenne Twister — any
fixed deterministic function of the seed; every theorem below holds for
all of them.  `random.choice(seq)` consumes one stream value and, as in
CPython, always produces an index below `len(seq)`.  The eight stat
keys are fixed in dict insertion order, so a class's stats are the list
of eight values aligned with `statKeys`. -/

def statKeys : List String :=
  ["vigor", "mind", "endurance", "strength", "dexterity", "intelligence",
   "faith", "arcane"]

def PLAYER_CLASSES : List (Nat × String) :=
  [(3000, "Vagabond"), (3001, "Warrior"), (3002, "Hero"), (3003, "Bandit"),
   (3004, "Astrologer"), (3005, "Prisoner"), (3006, "Confessor"),
   (3007, "Samurai"), (3008, "Prophet"), (3009, "Wretch")]

def TARGET_LEVEL : Nat := 9
def TOTAL_STATS : Nat := 88
def MIN_STAT : Nat := 6
def NUM_STATS : Nat := 8

/-- The global `random` module state. -/
structure PyRandom where
  stream : Nat → Nat
  pos : Nat

/-- `random.choice` over a sequence of length `n`: an index `< n` (for
`n > 0`), consuming one stream value. -/
def choiceIdx (g : PyRandom) (n : Nat) : Nat × PyRandom :=
  (g.stream g.pos % n, { g with pos := g.pos + 1 })

/-- `stats[keys[i]] += 1`. -/
def incIdx : List Nat → Nat → List Nat
  | [], _ => []
  | x :: xs, 0 => (x + 1) :: xs
  | x :: xs, n + 1 => x :: incIdx xs n

/-- `for _ in range(n): stats[random.choice(list(stats.keys()))] += 1`. -/
def applyPool : PyRandom → Nat → List Nat → List Nat × PyRandom
  | g, 0, s => (s, g)
  | g, n + 1, s =>
    let c := choiceIdx g s.length
    applyPool c.2 n (incIdx s c.1)

/-- One class's record: `{'name': class_name, 'stats': stats}` with the
eight attribute values in `statKeys` order plus `stats['level']`. -/
structure ClassStats where
  name : String
  stats : List Nat
  level : Nat
deriving DecidableEq

/-- One iteration of the `for row_id, class_name in PLAYER_CLASSES.items()`
loop: fresh stats at `MIN_STAT`, distribute `pool` points, set the
level, append the class record. -/
def classStep (pool : Nat) (base : List Nat) :
    (List (Nat × ClassStats) × PyRandom) → (Nat × String) →
      (List (Nat × ClassStats) × PyRandom) :=
  fun acc rc =>
    let r := applyPool acc.2 pool base
    (acc.1 ++ [(rc.1, { name := rc.2, stats := r.1, level := TARGET_LEVEL })], r.2)

/-- `randomize_stats(seed)`, given the modelled Mersenne Twister
`seedStream` and the pre-call global generator state `g0` (which
`random.seed(seed)` discards).  Returns the per-class table in
`PLAYER_CLASSES` order together with the final global generator
state. -/
def randomize_stats (seedStream : Int → Nat → Nat) (g0 : PyRandom) (seed : Int) :
    List (Nat × ClassStats) × PyRandom :=
  let gSeeded : PyRandom := { stream := seedStream seed, pos := 0 }
  PLAYER_CLASSES.foldl
    (classStep (TOTAL_STATS - MIN_STAT * NUM_STATS) (statKeys.map (fun _ => MIN_STAT)))
    ([], gSeeded)

/-! ### Invariants of the point-distribution loop -/

lemma incIdx_length (s : List Nat) (i : Nat) : (incIdx s i).length = s.length := by
  induction s generalizing i with
  | nil => rfl
  | cons x xs ih =>
    match i with
    | 0 => rfl
    | n + 1 => simpa [incIdx] using ih n

lemma incIdx_sum (s : List Nat) (i : Nat) (h : i < s.length) :
    (incIdx s i).sum = s.sum + 1 := by
  induction s generalizing i with
  | nil => simp at h
  | cons x xs ih =>
    match i with
    | 0 => simp [incIdx]; omega
    | n + 1 =>
      have := ih n (by simpa using h)
      simp [incIdx, this]
      omega

lemma incIdx_lb (s : List Nat) (i : Nat) (lb : Nat) (h : ∀ v ∈ s, lb ≤ v) :
    ∀ v ∈ incIdx s i, lb ≤ v := by
  induction s generalizing i with
  | nil => simpa [incIdx] using h
  | cons x xs ih =>
    match i with
    | 0 =>
      intro v hv
      rcases List.mem_cons.1 hv with h1 | h1
      · have := h x (List.mem_cons_self _ _)
        omega
      · exact h v (List.mem_cons_of_mem _ h1)
    | n + 1 =>
      intro v hv
      rcases List.mem_cons.1 hv with h1 | h1
      · exact h1 ▸ h x (List.mem_cons_self _ _)
      · exact ih n (fun w hw => h w (List.mem_cons_of_mem _ hw)) v h1

lemma applyPool_length : ∀ (n : Nat) (g : PyRandom) (s : List Nat),
    (applyPool g n s).1.length = s.length := by
  intro n
  induction n with
  | zero => intro g s; rfl
  | succ k ih =>
    intro g s
    rw [applyPool]
    rw [ih]
    exact incIdx_length s _

lemma applyPool_sum : ∀ (n : Nat) (g : PyRandom) (s : List Nat), 0 < s.length →
    (applyPool g n s).1.sum = s.sum + n := by
  intro n
  induction n with
  | zero => intro g s _; rfl
  | succ k ih =>
    intro g s hs
    rw [applyPool]
    rw [ih _ _ (by rw [incIdx_length]; exact hs)]
    rw [incIdx_sum s (choiceIdx g s.length).1 (Nat.mod_lt _ hs)]
    omega

lemma applyPool_lb : ∀ (n : Nat) (g : PyRandom) (s : List Nat) (lb : Nat),
    (∀ v ∈ s, lb ≤ v) → ∀ v ∈ (applyPool g n s).1, lb ≤ v := by
  intro n
  induction n with
  | zero => intro g s lb h; exact h
  | succ k ih =>
    intro g s lb h
    rw [applyPool]
    exact ih _ _ _ (incIdx_lb s _ lb h)

/-! ### Invariants of the class fold -/

lemma classFold_keys (pool : Nat) (base : List Nat) :
    ∀ (cls : List (Nat × String)) (init : List (Nat × ClassStats)) (g : PyRandom),
      (cls.foldl (classStep pool base) (init, g)).1.map Prod.fst
        = init.map Prod.fst ++ cls.map Prod.fst := by
  intro cls
  induction cls with
  | nil => intro init g; simp
  | cons c tl ih =>
    intro init g
    rw [List.foldl_cons]
    rw [classStep]
    rw [ih]
    simp

lemma classFold_inv (pool : Nat) (base : List Nat) (Q : ClassStats → Prop)
    (hQ : ∀ (g : PyRandom) (cn : String),
      Q { name := cn, stats := (applyPool g pool base).1, level := TARGET_LEVEL }) :
    ∀ (cls : List (Nat × String)) (init : List (Nat × ClassStats)) (g : PyRandom),
      (∀ e ∈ init, Q e.2) →
      ∀ e ∈ (cls.foldl (classStep pool base) (init, g)).1, Q e.2 := by
  intro cls
  induction cls with
  | nil => intro init g hinit; exact hinit
  | cons c tl ih =>
    intro init g hinit
    rw [List.foldl_cons, classStep]
    refine ih _ _ ?_
    intro e he
    rcases List.mem_append.1 he with h1 | h1
    · exact hinit e h1
    · have h2 : e = (c.1, { name := c.2, stats := (applyPool g pool base).1, level := TARGET_LEVEL }) := by simpa using h1
      rw [h2]
      exact hQ g c.2

/-- **C9** (confirmed). For every seed — indeed for every value stream
the seeded generator could produce, and whatever the pre-call global
generator state — the randomizer outputs stats for exactly the 10 known
class row ids 3000–3009 in order, and every class's eight attribute
values are each at least `MIN_STAT = 6`, sum to `TOTAL_STATS = 88`, with
`level = TARGET_LEVEL = 9`. -/
theorem randomize_stats_invariants (seedStream : Int → Nat → Nat) (g0 : PyRandom)
    (seed : Int) :
    (randomize_stats seedStream g0 seed).1.map Prod.fst
      = [3000, 3001, 3002, 3003, 3004, 3005, 3006, 3007, 3008, 3009]
    ∧ ∀ e ∈ (randomize_stats seedStream g0 seed).1,
        e.2.stats.length = 8
        ∧ (∀ v ∈ e.2.stats, 6 ≤ v)
        ∧ e.2.stats.sum = 88
        ∧ e.2.level = 9 := by
  constructor
  · rw [randomize_stats, classFold_keys]
    rfl
  · intro e he
    rw [randomize_stats] at he
    have hbase : ∀ v ∈ statKeys.map (fun _ => MIN_STAT), 6 ≤ v := by decide
    have hpos : 0 < (statKeys.map (fun _ => MIN_STAT)).length := by decide
    have hQ : ∀ (g : PyRandom) (cn : String),
        (fun cs : ClassStats => cs.stats.length = 8 ∧ (∀ v ∈ cs.stats, 6 ≤ v)
          ∧ cs.stats.sum = 88 ∧ cs.level = 9)
        { name := cn, stats := (applyPool g (TOTAL_STATS - MIN_STAT * NUM_STATS)
            (statKeys.map (fun _ => MIN_STAT))).1, level := TARGET_LEVEL } := by
      intro g cn
      dsimp only
      refine ⟨?_, ?_, ?_, rfl⟩
      · rw [applyPool_length]
        rfl
      · exact applyPool_lb (TOTAL_STATS - MIN_STAT * NUM_STATS) g
          (statKeys.map (fun _ => MIN_STAT)) 6 hbase
      · rw [applyPool_sum (TOTAL_STATS - MIN_STAT * NUM_STATS) g
          (statKeys.map (fun _ => MIN_STAT)) hpos]
        rfl
    exact classFold_inv (TOTAL_STATS - MIN_STAT * NUM_STATS)
      (statKeys.map (fun _ => MIN_STAT))
      (fun cs => cs.stats.length = 8 ∧ (∀ v ∈ cs.stats, 6 ≤ v)
        ∧ cs.stats.sum = 88 ∧ cs.level = 9)
      hQ PLAYER_CLASSES [] { stream := seedStream seed, pos := 0 }
      (by simp) e he

/-- Stream and generator used to witness C9 concretely: the all-zero
stream puts every pool point on the first key (vigor). -/
def zeroStream : Int → Nat → Nat := fun _ _ => 0

/-- The all-zero global generator state. -/
def zeroRandom : PyRandom := { stream := fun _ => 0, pos := 0 }

/-- Witness for C9: under the all-zero stream, Vagabond's row is
`(3000, {name := "Vagabond", stats := [46, 6, 6, 6, 6, 6, 6, 6],
level := 9})`, and the invariants hold of it. -/
theorem randomize_stats_invariants_witness :
    ((3000, ClassStats.mk "Vagabond" [46, 6, 6, 6, 6, 6, 6, 6] 9)
        ∈ (randomize_stats zeroStream zeroRandom 0).1)
    ∧ (ClassStats.mk "Vagabond" [46, 6, 6, 6, 6, 6, 6, 6] 9).stats.length = 8
    ∧ (∀ v ∈ (ClassStats.mk "Vagabond" [46, 6, 6, 6, 6, 6, 6, 6] 9).stats, 6 ≤ v)
    ∧ (ClassStats.mk "Vagabond" [46, 6, 6, 6, 6, 6, 6, 6] 9).stats.sum = 88
    ∧ (ClassStats.mk "Vagabond" [46, 6, 6, 6, 6, 6, 6, 6] 9).level = 9 := by
  have hmem : (3000, ClassStats.mk "Vagabond" [46, 6, 6, 6, 6, 6, 6, 6] 9)
      ∈ (randomize_stats zeroStream zeroRandom 0).1 := by
    decide
  exact ⟨hmem,
    (randomize_stats_invariants zeroStream zeroRandom 0).2 _ hmem⟩

/-- **C10** (confirmed). The randomizer is deterministic in its seed:
`random.seed(seed)` replaces the global generator state outright, so
two invocations with the same seed produce identical stats whatever
global state each starts from (first conjunct) — in particular a second
invocation run right after the first, from the mutated global state the
first one left behind (second conjunct). -/
theorem randomize_stats_deterministic (seedStream : Int → Nat → Nat)
    (g1 g2 : PyRandom) (seed : Int) :
    (randomize_stats seedStream g1 seed).1 = (randomize_stats seedStream g2 seed).1
    ∧ (randomize_stats seedStream g1 seed).1
      = (randomize_stats seedStream ((randomize_stats seedStream g1 seed).2) seed).1 := by
  constructor <;> simp only [randomize_stats]

end SCR
